import Mathlib

/-!
Verification of the acquisition-parse-persist pipeline of the atomic-clock
environmental data logger (`data_logging.py`).

The development shallowly embeds:
  * the response parser of `process_data` (line splitting, field splitting,
    timestamp parsing with `%d/%m/%Y %H:%M:%S`, unit-suffix stripping and
    float conversion of fields 1, 3, 5, 7);
  * the Modified Julian Date conversion (`datetime_to_mjd`);
  * the per-reading dual-sink writes of `process_data` / `write_to_database`
    (database insert in its own transaction, caught and rolled back on error;
    file append, not caught);
  * the `main` loop: startup, per-cycle day-rollover of the CSV file,
    per-cycle processing, and the `finally` cleanup that closes the file
    handle and the database connection.

Machine floats are modelled as rationals; the instrument strings are lists of
characters; the mutable world (database rows, per-day files, open handles) is
an explicit record threaded through the step functions.
-/

/-! ## Calendar and Modified Julian Date -/

/-- A calendar timestamp at second precision, as produced by
`datetime.strptime(s, "%d/%m/%Y %H:%M:%S")` in `process_data`. -/
structure DateTime where
  year : ℕ
  month : ℕ
  day : ℕ
  hour : ℕ
  minute : ℕ
  second : ℕ
deriving DecidableEq, Repr

/-- A calendar date, as produced by `timestamp.date()` / `datetime.now().date()`. -/
structure Date where
  year : ℕ
  month : ℕ
  day : ℕ
deriving DecidableEq, Repr

/-- The date of a timestamp (`timestamp.date()` at line 89 of the source). -/
def dateOf (t : DateTime) : Date := ⟨t.year, t.month, t.day⟩

/-- Proleptic-Gregorian leap-year rule, as used by Python `datetime`. -/
def isLeap (y : ℕ) : Bool := (y % 4 == 0 && !(y % 100 == 0)) || (y % 400 == 0)

/-- Number of days in a month (month `m` of a (non-)leap year). -/
def daysInMonth (leap : Bool) (m : ℕ) : ℕ :=
  if m = 2 then (if leap then 29 else 28)
  else if m = 4 ∨ m = 6 ∨ m = 9 ∨ m = 11 then 30
  else 31

/-- Number of days of the year strictly before month `m`. -/
def daysBeforeMonth (leap : Bool) : ℕ → ℕ
  | 0 => 0
  | 1 => 0
  | n + 2 => daysBeforeMonth leap (n + 1) + daysInMonth leap (n + 1)

/-- Number of days in a year. -/
def daysInYear (leap : Bool) : ℕ := if leap then 366 else 365

/-- Number of days strictly before January 1 of year `y`, counting from
0001-01-01 (proleptic Gregorian). -/
def daysBeforeYear (y : ℕ) : ℕ :=
  365 * (y - 1) + (y - 1) / 4 + (y - 1) / 400 - (y - 1) / 100

/-- Proleptic-Gregorian ordinal of a date: 0001-01-01 has ordinal 1
(the day count underlying Python `date.toordinal`). -/
def toOrdinal (t : DateTime) : ℕ :=
  daysBeforeYear t.year + daysBeforeMonth (isLeap t.year) t.month + t.day

/-- Seconds elapsed from 0001-01-01 00:00:00 to the given timestamp
(offset by one day, which cancels in every difference). -/
def totalSec (t : DateTime) : ℕ :=
  toOrdinal t * 86400 + t.hour * 3600 + t.minute * 60 + t.second

/-- Modelled from the spec: the source's `datetime_to_mjd` delegates the
conversion to the external astropy library (`Time(dt, format='datetime').mjd`),
which is not part of this repository.  Following §4.1 of the spec
(`toModifiedJulianDate`: deterministic calendar timestamp → Modified Julian
Date, matching the reference MJD day-count algorithm), the conversion is the
day count (with fraction of day) since the MJD epoch 1858-11-17 00:00:00,
computed over the proleptic Gregorian calendar in exact rational arithmetic. -/
def datetime_to_mjd (t : DateTime) : ℚ :=
  mkRat ((totalSec t : ℤ) - (totalSec ⟨1858, 11, 17, 0, 0, 0⟩ : ℤ)) 86400

/-- Validity of a timestamp: exactly the timestamps representable by Python's
`datetime` type (which `strptime` constructs or rejects with `ValueError`). -/
def validDT (t : DateTime) : Bool :=
  decide (1 ≤ t.year) && decide (t.year ≤ 9999) &&
  decide (1 ≤ t.month) && decide (t.month ≤ 12) &&
  decide (1 ≤ t.day) && decide (t.day ≤ daysInMonth (isLeap t.year) t.month) &&
  decide (t.hour ≤ 23) && decide (t.minute ≤ 59) && decide (t.second ≤ 59)

/-- Lexicographic (field-wise) strict order on timestamps — the order Python
`datetime` comparison implements. -/
def dtLt (a b : DateTime) : Prop :=
  a.year < b.year ∨ (a.year = b.year ∧
    (a.month < b.month ∨ (a.month = b.month ∧
      (a.day < b.day ∨ (a.day = b.day ∧
        (a.hour < b.hour ∨ (a.hour = b.hour ∧
          (a.minute < b.minute ∨ (a.minute = b.minute ∧
            a.second < b.second)))))))))

instance (a b : DateTime) : Decidable (dtLt a b) := by
  unfold dtLt; infer_instance

/-! ## Character-list utilities (models of the Python string operations) -/

/-- Model of Python `str.split(sep)` for a one-character separator:
`"".split(",") == [""]`, separators produce empty pieces. -/
def splitOnChar (c : Char) : List Char → List (List Char)
  | [] => [[]]
  | a :: as =>
    if a = c then [] :: splitOnChar c as
    else
      match splitOnChar c as with
      | [] => [[a]]
      | g :: gs => (a :: g) :: gs

/-- ASCII whitespace, for the model of `str.strip()`. -/
def isWS (c : Char) : Bool := c == ' ' || c == '\t' || c == '\r' || c == '\n'

/-- Model of Python `str.strip()` (no argument): remove leading and trailing
whitespace. -/
def trimL (l : List Char) : List Char :=
  ((l.dropWhile isWS).reverse.dropWhile isWS).reverse

/-- Model of Python `str.rstrip(c)` for a one-character argument: remove all
trailing occurrences of `c` (source lines 92–95 use `.rstrip('C')` and
`.rstrip('%')`). -/
def dropTrailingAll (c : Char) (l : List Char) : List Char :=
  (l.reverse.dropWhile (fun x => x == c)).reverse

/-- Model of Python `str.splitlines()` restricted to `\n` separators:
no trailing empty line, and `"".splitlines() == []`. -/
def pylines (l : List Char) : List (List Char) :=
  let gs := splitOnChar '\n' l
  if gs.getLast? = some [] then gs.dropLast else gs

/-! ## Numeric and timestamp field parsing -/

/-- Value of a digit string (most significant first). -/
def digitsToNat (l : List Char) : ℕ :=
  l.foldl (fun a c => a * 10 + (c.toNat - 48)) 0

/-- Unsigned part of Python `float()` on the grammar the instrument fields
use: digits, optionally a point with fractional digits; at least one digit. -/
def parseUF (l : List Char) : Option ℚ :=
  let ip := l.takeWhile Char.isDigit
  let rest := l.dropWhile Char.isDigit
  match rest with
  | [] => if ip.isEmpty then none else some (mkRat (digitsToNat ip) 1)
  | '.' :: fr =>
    if fr.all Char.isDigit && !(ip.isEmpty && fr.isEmpty) then
      some (mkRat (digitsToNat ip * 10 ^ fr.length + digitsToNat fr) (10 ^ fr.length))
    else none
  | _ => none

/-- Model of Python `float()` on instrument numeric fields: optional sign,
then an unsigned decimal literal; anything else raises `ValueError`
(modelled as `none`). -/
def parseFloatL (l : List Char) : Option ℚ :=
  match l with
  | '-' :: rest => (parseUF rest).map (fun q => -q)
  | '+' :: rest => parseUF rest
  | _ => parseUF l

/-- A numeric field of the response line: `parts[i].strip().rstrip(c)` then
`float(...)` (source lines 92–95). -/
def numFieldL (c : Char) (l : List Char) : Option ℚ :=
  parseFloatL (dropTrailingAll c (trimL l))

/-- A run of 1 to `maxLen` digits, as matched by one `strptime` directive. -/
def digitsN (maxLen : ℕ) (l : List Char) : Option ℕ :=
  if !l.isEmpty && l.length ≤ maxLen && l.all Char.isDigit then
    some (digitsToNat l)
  else none

/-- Model of `datetime.strptime(s, "%d/%m/%Y %H:%M:%S")` (source line 84):
day/month/year space hour:minute:second, each component a bounded digit run,
and the assembled timestamp must be a representable `datetime` value
(otherwise `ValueError`). -/
def parseTimestampL (l : List Char) : Option DateTime :=
  match splitOnChar ' ' l with
  | [dp, tp] =>
    match splitOnChar '/' dp, splitOnChar ':' tp with
    | [ds, ms, ys], [hs, mis, ss] =>
      match digitsN 2 ds, digitsN 2 ms, digitsN 4 ys,
            digitsN 2 hs, digitsN 2 mis, digitsN 2 ss with
      | some d, some mo, some y, some h, some mi, some s =>
        let t : DateTime := ⟨y, mo, d, h, mi, s⟩
        if validDT t then some t else none
      | _, _, _, _, _, _ => none
    | _, _ => none
  | _ => none

/-! ## Readings and the response parser -/

/-- The sole domain entity: one parsed instrument reading (spec §3). -/
structure Reading where
  timestamp : DateTime
  mjd : ℚ
  temperature_s1 : ℚ
  humidity_s1 : ℚ
  temperature_s2 : ℚ
  humidity_s2 : ℚ
deriving DecidableEq, Repr

/-- The reading built by `process_data` on a successfully parsed line:
`mjd` is derived from the timestamp, never independently set. -/
def mkReading (ts : DateTime) (t1 h1 t2 h2 : ℚ) : Reading :=
  ⟨ts, datetime_to_mjd ts, t1, h1, t2, h2⟩

/-- One line of `process_data` (source lines 76–107): split on `","`;
require at least 8 fields; parse field 0 as a timestamp (failure skips the
line); parse fields 1, 3, 5, 7 as floats after stripping the trailing unit
character (failure skips the line); emit one `Reading`. -/
def parseLineL (l : List Char) : Option Reading :=
  let parts := splitOnChar ',' l
  if 8 ≤ parts.length then
    match parseTimestampL (trimL (parts.getD 0 [])) with
    | some ts =>
      match numFieldL 'C' (parts.getD 1 []), numFieldL '%' (parts.getD 3 []),
            numFieldL 'C' (parts.getD 5 []), numFieldL '%' (parts.getD 7 []) with
      | some t1, some h1, some t2, some h2 => some (mkReading ts t1 h1 t2 h2)
      | _, _, _, _ => none
    | none => none
  else none

/-- `parseLineL` on a Lean string. -/
def parseLine (line : String) : Option Reading := parseLineL line.data

/-- The lines of a response (`data_response.splitlines()`, source line 75). -/
def respLines (resp : String) : List (List Char) := pylines resp.data

/-- The ResponseParser abstraction of spec §4.3: the readings `process_data`
extracts from one response, in source-line order. -/
def parse (resp : String) : List Reading :=
  (respLines resp).filterMap parseLineL

/-! ## The mutable world: database, per-day files, handles -/

/-- One row of a per-day CSV file: the header row written on file creation,
or a data row (whose rendered fields `date, timestamp, mjd, ...` are all
derived from the reading, source line 101). -/
inductive Row where
  | header
  | data (r : Reading)
deriving DecidableEq, Repr

/-- The per-day files, keyed by the date embedded in the file name
`sensor_dataset_{date}.csv` (the key is injective in the date). -/
abbrev Files := List (Date × List Row)

/-- Contents of the file for date `d`, when it exists. -/
def getFile : Files → Date → Option (List Row)
  | [], _ => none
  | (d', v) :: fs, d => if d = d' then some v else getFile fs d

/-- Replace (or create) the file for date `d`. -/
def putFile : Files → Date → List Row → Files
  | [], d, v => [(d, v)]
  | (d', v') :: fs, d, v =>
    if d = d' then (d', v) :: fs else (d', v') :: putFile fs d v

/-- The whole observable state of the daemon. -/
structure Sys where
  today : Date
  openDate : Date
  fileOpen : Bool
  connOpen : Bool
  files : Files
  db : List Reading
  errLog : ℕ
  rollCount : ℕ
  fileCloses : ℕ
  connCloses : ℕ
deriving DecidableEq, Repr

/-- The rows of the file for date `d` (empty when the file does not exist). -/
def fileRows (st : Sys) (d : Date) : List Row :=
  (getFile st.files d).getD []

/-- Append one row to the currently open file (the file of `st.today`) —
the `csv_writer.writerow` call at source line 101. -/
def appendRow (st : Sys) (r : Row) : Sys :=
  { st with files := putFile st.files st.today (fileRows st st.today ++ [r]) }

/-- Result of a batch or a run: either control flows on normally, or an
uncaught exception is propagating (carrying the state already produced). -/
inductive Outcome where
  | ok (s : Sys)
  | fatal (s : Sys)
deriving DecidableEq, Repr

/-- The state carried by an outcome. -/
def Outcome.state : Outcome → Sys
  | .ok s => s
  | .fatal s => s

/-- Per-line effect loop of `process_data` (source lines 76–107), with a
failure schedule for the two sinks indexed by the reading's position in this
response.  A malformed line is logged and skipped.  For a parsed reading the
database insert comes first: on failure it is caught inside
`write_to_database`, the transaction is rolled back (no row added) and the
error logged (source lines 124–126).  The CSV append comes second: a failure
there is an exception no handler catches, so it aborts the batch. -/
def procLines (dbOk fileOk : ℕ → Bool) :
    List (List Char) → ℕ → Sys → Outcome
  | [], _, st => .ok st
  | l :: ls, i, st =>
    match parseLineL l with
    | none => procLines dbOk fileOk ls i { st with errLog := st.errLog + 1 }
    | some r =>
      let st1 := if dbOk i then { st with db := st.db ++ [r] }
                 else { st with errLog := st.errLog + 1 }
      if fileOk i then procLines dbOk fileOk ls (i + 1) (appendRow st1 (.data r))
      else .fatal st1

/-- `process_data(data_response, conn, csv_writer, today_date)`. -/
def processData (resp : String) (dbOk fileOk : ℕ → Bool) (st : Sys) : Outcome :=
  procLines dbOk fileOk (respLines resp) 0 st

/-- The state `procLines` produces when every file write succeeds (used to
characterize the no-`SinkError` runs of `process_data`). -/
def runLines (dbOk : ℕ → Bool) : List (List Char) → ℕ → Sys → Sys
  | [], _, st => st
  | l :: ls, i, st =>
    match parseLineL l with
    | none => runLines dbOk ls i { st with errLog := st.errLog + 1 }
    | some r =>
      let st1 := if dbOk i then { st with db := st.db ++ [r] }
                 else { st with errLog := st.errLog + 1 }
      runLines dbOk ls (i + 1) (appendRow st1 (.data r))

/-- The inputs of one acquisition cycle: the wall-clock date at the top of
the cycle, whether the serial read succeeds, the response text, and the two
sink failure schedules for this response's readings. -/
structure AcqCycle where
  now : Date
  transportOk : Bool
  resp : String
  dbOk : ℕ → Bool
  fileOk : ℕ → Bool

/-- The rollover check at the top of each cycle (source lines 156–166):
if the date changed, close the current file, create the new day's file with
the header row exactly when it does not exist yet, open it in append mode
(existing contents kept), and update `today_date`. -/
def rollover (now : Date) (st : Sys) : Sys :=
  if now = st.today then st
  else
    { st with
      today := now
      openDate := now
      rollCount := st.rollCount + 1
      fileCloses := st.fileCloses + 1
      files := if (getFile st.files now).isSome then st.files
               else putFile st.files now [.header] }

/-- One acquisition cycle of the `while True` loop (source lines 154–175):
rollover check, then the serial read (a `SerialException` there is fatal),
then `process_data` on the response. -/
def stepCycle (c : AcqCycle) (st : Sys) : Outcome :=
  if c.transportOk then processData c.resp c.dbOk c.fileOk (rollover c.now st)
  else .fatal (rollover c.now st)

/-- The `finally` block (source lines 181–186): close the open file handle,
close the database connection.  It runs on every exit from the `try`. -/
def cleanup (st : Sys) : Sys :=
  { st with
    fileOpen := false, fileCloses := st.fileCloses + 1,
    connOpen := false, connCloses := st.connCloses + 1 }

/-- How a run of `main` ended. -/
inductive ExitKind where
  | dbConnectFail
  | transportFatal
  | sinkFatal
  | interrupted
deriving DecidableEq, Repr

/-- The state after the startup sequence of `main` (source lines 130–148):
database connected, schema ensured, today's file created with the header row
exactly when absent, then opened in append mode. -/
def startingState (d0 : Date) (files0 : Files) : Sys :=
  { today := d0
    openDate := d0
    fileOpen := true
    connOpen := true
    files := if (getFile files0 d0).isSome then files0
             else putFile files0 d0 [.header]
    db := []
    errLog := 0
    rollCount := 0
    fileCloses := 0
    connCloses := 0 }

/-- The state when `connect_to_db` failed: `main` returns at line 132 before
any resource is acquired. -/
def initState0 (d0 : Date) (files0 : Files) : Sys :=
  { today := d0, openDate := d0, fileOpen := false, connOpen := false,
    files := files0, db := [], errLog := 0, rollCount := 0,
    fileCloses := 0, connCloses := 0 }

/-- The acquisition loop over a finite schedule of cycles; after the schedule
an external process interrupt ends the run.  Every exit path goes through
`cleanup` (the `finally` block). -/
def runCycles : List AcqCycle → Sys → Sys × ExitKind
  | [], st => (cleanup st, .interrupted)
  | c :: cs, st =>
    if c.transportOk then
      match processData c.resp c.dbOk c.fileOk (rollover c.now st) with
      | .ok st' => runCycles cs st'
      | .fatal st' => (cleanup st', .sinkFatal)
    else (cleanup (rollover c.now st), .transportFatal)

/-- `main()` (source lines 129–186): connect to the database (failure returns
immediately), start up the file sink, open the serial transport (failure is
fatal and goes through `finally`), then run the loop. -/
def runMain (dbConnectOk serialOk : Bool) (d0 : Date) (files0 : Files)
    (cycles : List AcqCycle) : Sys × ExitKind :=
  if dbConnectOk then
    if serialOk then runCycles cycles (startingState d0 files0)
    else (cleanup (startingState d0 files0), .transportFatal)
  else (initState0 d0 files0, .dbConnectFail)

theorem isLeap_spec (y : ℕ) :
    isLeap y = true ↔ ((y % 4 = 0 ∧ ¬ y % 100 = 0) ∨ y % 400 = 0) := by
  unfold isLeap
  simp only [Bool.or_eq_true, Bool.and_eq_true, beq_iff_eq, Bool.not_eq_true',
    beq_eq_false_iff_ne, ne_eq]

theorem dby_succ (n : ℕ) :
    daysBeforeYear (n + 2) = daysBeforeYear (n + 1) + daysInYear (isLeap (n + 1)) := by
  have hl := isLeap_spec (n + 1)
  unfold daysBeforeYear daysInYear
  rw [show n + 2 - 1 = n + 1 by omega, show n + 1 - 1 = n by omega]
  rw [Nat.succ_div n 4, Nat.succ_div n 400, Nat.succ_div n 100]
  by_cases hb : isLeap (n + 1) = true
  · rw [hb, if_pos rfl]
    rw [hl] at hb
    split_ifs <;> omega
  · rw [Bool.not_eq_true] at hb
    rw [hb]
    rw [hb] at hl
    simp only [Bool.false_eq_true, false_iff, not_or, not_and, Decidable.not_not] at hl
    simp only [Bool.false_eq_true, if_false]
    split_ifs <;> omega

theorem dby_mono {a b : ℕ} (h : a ≤ b) : daysBeforeYear a ≤ daysBeforeYear b := by
  induction b with
  | zero =>
    have ha0 : a = 0 := by omega
    rw [ha0]
  | succ n ih =>
    by_cases h' : a ≤ n
    · refine le_trans (ih h') ?_
      match n with
      | 0 => decide
      | m + 1 => rw [dby_succ m]; omega
    · have ha : a = n + 1 := by omega
      rw [ha]

theorem dby_step {a b : ℕ} (ha : 1 ≤ a) (hab : a < b) :
    daysBeforeYear a + daysInYear (isLeap a) ≤ daysBeforeYear b := by
  obtain ⟨n, rfl⟩ : ∃ n, a = n + 1 := ⟨a - 1, by omega⟩
  calc daysBeforeYear (n + 1) + daysInYear (isLeap (n + 1))
      = daysBeforeYear (n + 2) := (dby_succ n).symm
    _ ≤ daysBeforeYear b := dby_mono (by omega)

theorem dbm13 (leap : Bool) : daysBeforeMonth leap 13 = daysInYear leap := by
  cases leap <;> decide

theorem dbm_le (leap : Bool) (m1 m2 : ℕ) (h1 : 1 ≤ m1) (h2 : m1 < m2) (h3 : m2 ≤ 13) :
    daysBeforeMonth leap m1 + daysInMonth leap m1 ≤ daysBeforeMonth leap m2 := by
  have hm1 : m1 ≤ 12 := by omega
  interval_cases m1 <;> interval_cases m2 <;> cases leap <;> decide

theorem validDT_spec (t : DateTime) : validDT t = true ↔
    (1 ≤ t.year ∧ t.year ≤ 9999 ∧ 1 ≤ t.month ∧ t.month ≤ 12 ∧
     1 ≤ t.day ∧ t.day ≤ daysInMonth (isLeap t.year) t.month ∧
     t.hour ≤ 23 ∧ t.minute ≤ 59 ∧ t.second ≤ 59) := by
  unfold validDT
  simp only [Bool.and_eq_true, decide_eq_true_eq, and_assoc]

theorem ord_lt {a b : DateTime} (hva : validDT a = true) (hvb : validDT b = true)
    (h : a.year < b.year ∨ (a.year = b.year ∧ (a.month < b.month ∨
         (a.month = b.month ∧ a.day < b.day)))) :
    toOrdinal a < toOrdinal b := by
  rw [validDT_spec] at hva hvb
  obtain ⟨hy1a, -, hm1a, hm2a, hd1a, hd2a, -⟩ := hva
  obtain ⟨hy1b, -, hm1b, hm2b, hd1b, hd2b, -⟩ := hvb
  unfold toOrdinal
  rcases h with hy | ⟨hy, hm | ⟨hm, hd⟩⟩
  · have hbound : daysBeforeMonth (isLeap a.year) a.month + a.day ≤ daysInYear (isLeap a.year) := by
      have h1 := dbm_le (isLeap a.year) a.month 13 hm1a (by omega) (by omega)
      have h2 := dbm13 (isLeap a.year)
      omega
    have hstep := dby_step hy1a hy
    have hmono : 1 ≤ daysBeforeMonth (isLeap b.year) b.month + b.day := by omega
    omega
  · rw [hy] at hd2a ⊢
    have h1 := dbm_le (isLeap b.year) a.month b.month hm1a hm (by omega)
    omega
  · rw [hy, hm]
    omega

theorem totalSec_lt {a b : DateTime} (hva : validDT a = true) (hvb : validDT b = true)
    (h : dtLt a b) : totalSec a < totalSec b := by
  have hta := (validDT_spec a).mp hva
  have htb := (validDT_spec b).mp hvb
  unfold totalSec
  rcases h with hy | ⟨hy, hm | ⟨hm, hd | ⟨hd, ht⟩⟩⟩
  · have := ord_lt hva hvb (Or.inl hy); omega
  · have := ord_lt hva hvb (Or.inr ⟨hy, Or.inl hm⟩); omega
  · have := ord_lt hva hvb (Or.inr ⟨hy, Or.inr ⟨hm, hd⟩⟩); omega
  · have : toOrdinal a = toOrdinal b := by
      unfold toOrdinal; rw [hy, hm, hd]
    rcases ht with hh | ⟨hh, hmi | ⟨hmi, hs⟩⟩ <;> omega

theorem mjd_strict_mono {a b : DateTime} (hva : validDT a = true) (hvb : validDT b = true)
    (h : dtLt a b) : datetime_to_mjd a < datetime_to_mjd b := by
  have hlt := totalSec_lt hva hvb h
  unfold datetime_to_mjd
  rw [Rat.mkRat_eq_div, Rat.mkRat_eq_div]
  gcongr

theorem parseLineL_mjd {l : List Char} {r : Reading} (h : parseLineL l = some r) :
    r.mjd = datetime_to_mjd r.timestamp := by
  simp only [parseLineL] at h
  split at h
  · split at h
    · split at h
      · injection h with h
        subst h
        rfl
      · exact Option.noConfusion h
    · exact Option.noConfusion h
  · exact Option.noConfusion h

theorem length_filterMap_add {α β : Type} (f : α → Option β) (l : List α) :
    (l.filterMap f).length + l.countP (fun x => (f x).isNone) = l.length := by
  induction l with
  | nil => rfl
  | cons a t ih =>
    rcases hf : f a with _ | b <;>
      simp [List.filterMap_cons, hf, List.countP_cons] <;> omega

theorem filterMap_filter_isSome {α β : Type} (f : α → Option β) (l : List α) :
    (l.filter (fun x => (f x).isSome)).filterMap f = l.filterMap f := by
  induction l with
  | nil => rfl
  | cons a t ih =>
    rcases hf : f a with _ | b <;>
      simp [List.filter_cons, List.filterMap_cons, hf, ih]

theorem getLast?_cons_of_ne_nil {α : Type} (a : α) {l : List α} (h : l ≠ []) :
    (a :: l).getLast? = l.getLast? := by
  rcases List.eq_nil_or_concat l with rfl | ⟨l', b, rfl⟩
  · exact absurd rfl h
  · rw [List.concat_eq_append, show a :: (l' ++ [b]) = (a :: l') ++ [b] from rfl,
      List.getLast?_concat, List.getLast?_concat]

theorem parseUF_nil : parseUF [] = none := rfl

theorem parseUF_getLast {l : List Char} {q : ℚ} (h : parseUF l = some q) :
    ∃ a, l.getLast? = some a ∧ (a.isDigit ∨ a = '.') := by
  have hne : l ≠ [] := by
    rintro rfl
    rw [parseUF_nil] at h
    exact Option.noConfusion h
  simp only [parseUF] at h
  rcases hrest : l.dropWhile Char.isDigit with _ | ⟨c, fr⟩ <;> rw [hrest] at h
  · have hall := List.dropWhile_eq_nil_iff.mp hrest
    exact ⟨l.getLast hne, List.getLast?_eq_getLast _ hne,
      Or.inl (hall _ (List.getLast_mem hne))⟩
  · have hsplit : l = l.takeWhile Char.isDigit ++ (c :: fr) := by
      rw [← hrest, List.takeWhile_append_dropWhile]
    split at h
    · rename_i heq
      exact absurd heq (List.cons_ne_nil _ _)
    · rename_i fr' heq
      injection heq with hc hfr
      subst hc hfr
      split at h
      · rename_i hcond
        simp only [Bool.and_eq_true, List.all_eq_true] at hcond
        rcases List.eq_nil_or_concat fr with rfl | ⟨fs, a, rfl⟩
        · refine ⟨'.', ?_, Or.inr rfl⟩
          rw [hsplit]
          exact List.getLast?_concat _
        · rw [List.concat_eq_append] at *
          refine ⟨a, ?_, Or.inl (hcond.1 a (by simp))⟩
          rw [hsplit, show ('.' :: (fs ++ [a])) = ('.' :: fs) ++ [a] from rfl,
            ← List.append_assoc]
          exact List.getLast?_concat _
      · exact Option.noConfusion h
    · exact Option.noConfusion h

theorem parseFloatL_getLast {l : List Char} {q : ℚ} (h : parseFloatL l = some q) :
    ∃ a, l.getLast? = some a ∧ (a.isDigit ∨ a = '.') := by
  unfold parseFloatL at h
  split at h
  · rename_i rest
    rcases hp : parseUF rest with _ | q' <;> rw [hp] at h
    · exact Option.noConfusion h
    · obtain ⟨a, hl, hd⟩ := parseUF_getLast hp
      have hne : rest ≠ [] := by
        rintro rfl
        rw [parseUF_nil] at hp
        exact Option.noConfusion hp
      exact ⟨a, by rw [getLast?_cons_of_ne_nil _ hne]; exact hl, hd⟩
  · rename_i rest
    have hne : rest ≠ [] := by
      rintro rfl
      rw [parseUF_nil] at h
      exact Option.noConfusion h
    obtain ⟨a, hl, hd⟩ := parseUF_getLast h
    exact ⟨a, by rw [getLast?_cons_of_ne_nil _ hne]; exact hl, hd⟩
  · exact parseUF_getLast h

theorem dta_append_replicate (c : Char) (l : List Char) (n : ℕ) :
    dropTrailingAll c (l ++ List.replicate n c) = dropTrailingAll c l := by
  unfold dropTrailingAll
  rw [List.reverse_append, List.reverse_replicate]
  congr 1
  induction n with
  | zero => simp
  | succ k ih => simp [List.replicate_succ, List.dropWhile_cons, ih]

theorem dta_of_getLast_ne {l : List Char} {a c : Char}
    (hl : l.getLast? = some a) (hne : a ≠ c) : dropTrailingAll c l = l := by
  rcases List.eq_nil_or_concat l with rfl | ⟨l', b, rfl⟩
  · simp at hl
  · rw [List.concat_eq_append] at *
    rw [List.getLast?_concat] at hl
    injection hl with hb
    subst hb
    unfold dropTrailingAll
    rw [List.reverse_append]
    simp [List.dropWhile_cons, hne]

theorem getFile_putFile_self (fs : Files) (d : Date) (v : List Row) :
    getFile (putFile fs d v) d = some v := by
  induction fs with
  | nil => simp [putFile, getFile]
  | cons p fs ih =>
    obtain ⟨d', v'⟩ := p
    by_cases h : d = d' <;> simp [putFile, getFile, h, ih]

theorem getFile_putFile_ne (fs : Files) {d d' : Date} (v : List Row) (h : d ≠ d') :
    getFile (putFile fs d' v) d = getFile fs d := by
  induction fs with
  | nil => simp [putFile, getFile, h]
  | cons p fs ih =>
    obtain ⟨d'', v''⟩ := p
    by_cases h2 : d' = d''
    · subst h2
      simp [putFile, getFile, h]
    · by_cases h3 : d = d'' <;> simp [putFile, getFile, h2, h3, ih]

theorem fileRows_appendRow (st : Sys) (r : Row) :
    fileRows (appendRow st r) st.today = fileRows st st.today ++ [r] := by
  simp [appendRow, fileRows, getFile_putFile_self]

theorem appendRow_frame (st : Sys) (r : Row) :
    (appendRow st r).today = st.today ∧ (appendRow st r).openDate = st.openDate ∧
    (appendRow st r).connOpen = st.connOpen ∧ (appendRow st r).fileOpen = st.fileOpen ∧
    (appendRow st r).rollCount = st.rollCount ∧ (appendRow st r).fileCloses = st.fileCloses ∧
    (appendRow st r).connCloses = st.connCloses ∧ (appendRow st r).db = st.db ∧
    (appendRow st r).errLog = st.errLog := by
  simp [appendRow]

theorem getFile_appendRow_ext (st : Sys) (r : Row) (d : Date) (rs : List Row)
    (h : getFile st.files d = some rs) :
    ∃ ext, getFile (appendRow st r).files d = some (rs ++ ext) := by
  by_cases hd : d = st.today
  · subst hd
    refine ⟨[r], ?_⟩
    simp only [appendRow, getFile_putFile_self, fileRows, h, Option.getD_some]
  · exact ⟨[], by simp [appendRow, getFile_putFile_ne _ _ hd, h]⟩

theorem procLines_eq_runLines (dbOk : ℕ → Bool) (ls : List (List Char)) :
    ∀ (i : ℕ) (st : Sys),
    procLines dbOk (fun _ => true) ls i st = .ok (runLines dbOk ls i st) := by
  induction ls with
  | nil => intro i st; rfl
  | cons l ls ih =>
    intro i st
    simp only [procLines, runLines]
    cases hp : parseLineL l with
    | none => exact ih i _
    | some r => exact ih (i + 1) _

theorem runLines_frame (dbOk : ℕ → Bool) (ls : List (List Char)) :
    ∀ (i : ℕ) (st : Sys),
    (runLines dbOk ls i st).today = st.today ∧
    (runLines dbOk ls i st).openDate = st.openDate ∧
    (runLines dbOk ls i st).connOpen = st.connOpen ∧
    (runLines dbOk ls i st).fileOpen = st.fileOpen ∧
    (runLines dbOk ls i st).rollCount = st.rollCount ∧
    (runLines dbOk ls i st).fileCloses = st.fileCloses ∧
    (runLines dbOk ls i st).connCloses = st.connCloses := by
  induction ls with
  | nil => intro i st; exact ⟨rfl, rfl, rfl, rfl, rfl, rfl, rfl⟩
  | cons l ls ih =>
    intro i st
    simp only [runLines]
    cases hp : parseLineL l with
    | none => simpa using ih i { st with errLog := st.errLog + 1 }
    | some r =>
      by_cases hdb : dbOk i <;>
        simpa [hdb, appendRow] using ih (i + 1) _

theorem runLines_fileRows (dbOk : ℕ → Bool) (ls : List (List Char)) :
    ∀ (i : ℕ) (st : Sys) (d : Date), d = st.today →
    fileRows (runLines dbOk ls i st) d =
      fileRows st d ++ (ls.filterMap parseLineL).map Row.data := by
  induction ls with
  | nil => intro i st d hd; simp [runLines]
  | cons l ls ih =>
    intro i st d hd
    cases hp : parseLineL l with
    | none =>
      simp only [runLines, hp]
      rw [List.filterMap_cons_none hp]
      exact ih i { st with errLog := st.errLog + 1 } d hd
    | some r =>
      simp only [runLines, hp]
      rw [List.filterMap_cons_some hp]
      split
      · have h1 := ih (i + 1) (appendRow { st with db := st.db ++ [r] } (.data r)) d hd
        have h2 : fileRows (appendRow { st with db := st.db ++ [r] } (.data r)) d
            = fileRows st d ++ [Row.data r] := by
          rw [hd]
          exact fileRows_appendRow _ _
        rw [h1, h2, List.map_cons]
        simp [List.append_assoc]
      · have h1 := ih (i + 1) (appendRow { st with errLog := st.errLog + 1 } (.data r)) d hd
        have h2 : fileRows (appendRow { st with errLog := st.errLog + 1 } (.data r)) d
            = fileRows st d ++ [Row.data r] := by
          rw [hd]
          exact fileRows_appendRow _ _
        rw [h1, h2, List.map_cons]
        simp [List.append_assoc]

theorem runLines_db_true (dbOk : ℕ → Bool) (hj : ∀ j, dbOk j = true)
    (ls : List (List Char)) : ∀ (i : ℕ) (st : Sys),
    (runLines dbOk ls i st).db = st.db ++ ls.filterMap parseLineL ∧
    (runLines dbOk ls i st).errLog =
      st.errLog + ls.countP (fun l => (parseLineL l).isNone) := by
  induction ls with
  | nil => intro i st; simp [runLines]
  | cons l ls ih =>
    intro i st
    cases hp : parseLineL l with
    | none =>
      simp only [runLines, hp]
      obtain ⟨hdb, herr⟩ := ih i { st with errLog := st.errLog + 1 }
      refine ⟨by rw [hdb, List.filterMap_cons_none hp], ?_⟩
      rw [herr, List.countP_cons]
      simp [hp]
      omega
    | some r =>
      simp only [runLines, hp, hj i, eq_self_iff_true, ite_true]
      obtain ⟨hdb, herr⟩ := ih (i + 1) (appendRow { st with db := st.db ++ [r] } (.data r))
      refine ⟨?_, ?_⟩
      · rw [hdb, List.filterMap_cons_some hp]
        simp [appendRow]
      · rw [herr, List.countP_cons]
        simp [hp, appendRow]

theorem runLines_db_false (dbOk : ℕ → Bool) (hj : ∀ j, dbOk j = false)
    (ls : List (List Char)) : ∀ (i : ℕ) (st : Sys),
    (runLines dbOk ls i st).db = st.db ∧
    (runLines dbOk ls i st).errLog = st.errLog + ls.length := by
  induction ls with
  | nil => intro i st; simp [runLines]
  | cons l ls ih =>
    intro i st
    cases hp : parseLineL l with
    | none =>
      simp only [runLines, hp]
      obtain ⟨hdb, herr⟩ := ih i { st with errLog := st.errLog + 1 }
      refine ⟨hdb, ?_⟩
      rw [herr]
      simp
      omega
    | some r =>
      simp only [runLines, hp, hj i, Bool.false_eq_true, ite_false]
      obtain ⟨hdb, herr⟩ := ih (i + 1) (appendRow { st with errLog := st.errLog + 1 } (.data r))
      refine ⟨by rw [hdb]; simp [appendRow], ?_⟩
      rw [herr]
      simp [appendRow]
      omega

theorem procLines_state_frame (dbOk fileOk : ℕ → Bool) (ls : List (List Char)) :
    ∀ (i : ℕ) (st : Sys),
    (procLines dbOk fileOk ls i st).state.today = st.today ∧
    (procLines dbOk fileOk ls i st).state.openDate = st.openDate ∧
    (procLines dbOk fileOk ls i st).state.connOpen = st.connOpen ∧
    (procLines dbOk fileOk ls i st).state.fileOpen = st.fileOpen ∧
    (procLines dbOk fileOk ls i st).state.rollCount = st.rollCount ∧
    (procLines dbOk fileOk ls i st).state.fileCloses = st.fileCloses ∧
    (procLines dbOk fileOk ls i st).state.connCloses = st.connCloses ∧
    (∀ d rs, getFile st.files d = some rs →
      ∃ ext, getFile (procLines dbOk fileOk ls i st).state.files d = some (rs ++ ext)) := by
  induction ls with
  | nil =>
    intro i st
    exact ⟨rfl, rfl, rfl, rfl, rfl, rfl, rfl, fun d rs h => ⟨[], by simp [procLines, Outcome.state, h]⟩⟩
  | cons l ls ih =>
    intro i st
    cases hp : parseLineL l with
    | none =>
      simp only [procLines, hp]
      exact ih i { st with errLog := st.errLog + 1 }
    | some r =>
      simp only [procLines, hp]
      by_cases hdb : dbOk i = true
      · rw [if_pos hdb]
        by_cases hf : fileOk i = true
        · rw [if_pos hf]
          obtain ⟨h1, h2, h3, h4, h5, h6, h7, h8⟩ :=
            ih (i + 1) (appendRow { st with db := st.db ++ [r] } (.data r))
          refine ⟨h1, h2, h3, h4, h5, h6, h7, fun d rs h => ?_⟩
          obtain ⟨e1, he1⟩ := getFile_appendRow_ext { st with db := st.db ++ [r] } (.data r) d rs h
          obtain ⟨e2, he2⟩ := h8 d (rs ++ e1) he1
          exact ⟨e1 ++ e2, by rw [he2, List.append_assoc]⟩
        · rw [if_neg hf]
          exact ⟨rfl, rfl, rfl, rfl, rfl, rfl, rfl,
            fun d rs h => ⟨[], by simpa [Outcome.state] using h⟩⟩
      · rw [if_neg hdb]
        by_cases hf : fileOk i = true
        · rw [if_pos hf]
          obtain ⟨h1, h2, h3, h4, h5, h6, h7, h8⟩ :=
            ih (i + 1) (appendRow { st with errLog := st.errLog + 1 } (.data r))
          refine ⟨h1, h2, h3, h4, h5, h6, h7, fun d rs h => ?_⟩
          obtain ⟨e1, he1⟩ := getFile_appendRow_ext { st with errLog := st.errLog + 1 } (.data r) d rs h
          obtain ⟨e2, he2⟩ := h8 d (rs ++ e1) he1
          exact ⟨e1 ++ e2, by rw [he2, List.append_assoc]⟩
        · rw [if_neg hf]
          exact ⟨rfl, rfl, rfl, rfl, rfl, rfl, rfl,
            fun d rs h => ⟨[], by simpa [Outcome.state] using h⟩⟩

theorem procLines_fileFail (dbOk fileOk : ℕ → Bool) (ls : List (List Char)) :
    ∀ (i : ℕ) (st : Sys) (r : Reading) (rest : List Reading),
    ls.filterMap parseLineL = r :: rest → fileOk i = false →
    ∃ st', procLines dbOk fileOk ls i st = .fatal st' ∧
      st'.files = st.files ∧ st'.today = st.today ∧
      st'.db = st.db ++ (if dbOk i = true then [r] else []) := by
  induction ls with
  | nil => intro i st r rest h hf; simp at h
  | cons l ls ih =>
    intro i st r rest h hf
    cases hp : parseLineL l with
    | none =>
      rw [List.filterMap_cons_none hp] at h
      simp only [procLines, hp]
      exact ih i { st with errLog := st.errLog + 1 } r rest h hf
    | some r' =>
      rw [List.filterMap_cons_some hp] at h
      injection h with hr hrest
      subst hr
      simp only [procLines, hp]
      rw [if_neg (by simp [hf])]
      by_cases hdb : dbOk i = true
      · rw [if_pos hdb, if_pos hdb]
        exact ⟨_, rfl, rfl, rfl, rfl⟩
      · rw [if_neg hdb, if_neg hdb]
        exact ⟨_, rfl, rfl, rfl, by simp⟩

theorem rollover_spec (now : Date) (st : Sys) :
    (rollover now st).today = now ∧
    (rollover now st).openDate = (if now = st.today then st.openDate else now) ∧
    (rollover now st).connOpen = st.connOpen ∧
    (rollover now st).fileOpen = st.fileOpen ∧
    (rollover now st).db = st.db ∧
    (rollover now st).errLog = st.errLog ∧
    (rollover now st).connCloses = st.connCloses ∧
    (rollover now st).rollCount = st.rollCount + (if now = st.today then 0 else 1) ∧
    (rollover now st).fileCloses = st.fileCloses + (if now = st.today then 0 else 1) := by
  unfold rollover
  by_cases h : now = st.today <;> simp [h]

theorem processData_frame (resp : String) (dbOk fileOk : ℕ → Bool) (st : Sys) :
    (processData resp dbOk fileOk st).state.today = st.today ∧
    (processData resp dbOk fileOk st).state.openDate = st.openDate ∧
    (processData resp dbOk fileOk st).state.connOpen = st.connOpen ∧
    (processData resp dbOk fileOk st).state.fileOpen = st.fileOpen ∧
    (processData resp dbOk fileOk st).state.rollCount = st.rollCount ∧
    (processData resp dbOk fileOk st).state.fileCloses = st.fileCloses ∧
    (processData resp dbOk fileOk st).state.connCloses = st.connCloses ∧
    (∀ d rs, getFile st.files d = some rs →
      ∃ ext, getFile (processData resp dbOk fileOk st).state.files d = some (rs ++ ext)) :=
  procLines_state_frame dbOk fileOk (respLines resp) 0 st

theorem runCycles_resources (cycles : List AcqCycle) : ∀ st : Sys,
    st.connOpen = true → st.fileOpen = true → st.connCloses = 0 →
    st.fileCloses = st.rollCount →
    (runCycles cycles st).1.connOpen = false ∧
    (runCycles cycles st).1.fileOpen = false ∧
    (runCycles cycles st).1.connCloses = 1 ∧
    (runCycles cycles st).1.fileCloses = 1 + (runCycles cycles st).1.rollCount := by
  induction cycles with
  | nil =>
    intro st h1 h2 h3 h4
    simp [runCycles, cleanup]
    omega
  | cons c cs ih =>
    intro st h1 h2 h3 h4
    obtain ⟨r1, r2, r3, r4, r5, r6, r7, r8, r9⟩ := rollover_spec c.now st
    simp only [runCycles]
    by_cases ht : c.transportOk = true
    · rw [if_pos ht]
      cases hout : processData c.resp c.dbOk c.fileOk (rollover c.now st) with
      | ok st' =>
        obtain ⟨f1, f2, f3, f4, f5, f6, f7, f8⟩ :=
          processData_frame c.resp c.dbOk c.fileOk (rollover c.now st)
        rw [hout] at f1 f2 f3 f4 f5 f6 f7
        simp only [Outcome.state] at f1 f2 f3 f4 f5 f6 f7
        have g1 : st'.connOpen = true := by rw [f3, r3, h1]
        have g2 : st'.fileOpen = true := by rw [f4, r4, h2]
        have g3 : st'.connCloses = 0 := by rw [f7, r7, h3]
        have g4 : st'.fileCloses = st'.rollCount := by rw [f6, r9, f5, r8, h4]
        exact ih st' g1 g2 g3 g4
      | fatal st' =>
        obtain ⟨f1, f2, f3, f4, f5, f6, f7, f8⟩ :=
          processData_frame c.resp c.dbOk c.fileOk (rollover c.now st)
        rw [hout] at f5 f6 f7
        simp only [Outcome.state] at f5 f6 f7
        have g3 : st'.connCloses = 0 := by rw [f7, r7, h3]
        have g4 : st'.fileCloses = st'.rollCount := by rw [f6, r9, f5, r8, h4]
        refine ⟨rfl, rfl, ?_, ?_⟩
        · show st'.connCloses + 1 = 1
          omega
        · show st'.fileCloses + 1 = 1 + st'.rollCount
          omega
    · rw [if_neg ht]
      refine ⟨rfl, rfl, ?_, ?_⟩
      · show (rollover c.now st).connCloses + 1 = 1
        omega
      · show (rollover c.now st).fileCloses + 1 = 1 + (rollover c.now st).rollCount
        omega

/-- C1: for every response line with at least 8 comma-separated fields whose
field 0 parses as a `DD/MM/YYYY HH:MM:SS` timestamp and whose fields
1, 3, 5, 7 parse as floating-point numbers after stripping the trailing unit
character (`C` for temperatures, `%` for humidities), `parse` yields exactly
one Reading whose timestamp and four numeric fields equal the parsed inputs
and whose mjd is derived from the timestamp. -/
theorem c1_parse_wellformed_line (line : String) (ts : DateTime) (q1 q2 q3 q4 : ℚ)
    (hlen : 8 ≤ (splitOnChar ',' line.data).length)
    (hts : parseTimestampL (trimL ((splitOnChar ',' line.data).getD 0 [])) = some ts)
    (hf1 : numFieldL 'C' ((splitOnChar ',' line.data).getD 1 []) = some q1)
    (hf3 : numFieldL '%' ((splitOnChar ',' line.data).getD 3 []) = some q2)
    (hf5 : numFieldL 'C' ((splitOnChar ',' line.data).getD 5 []) = some q3)
    (hf7 : numFieldL '%' ((splitOnChar ',' line.data).getD 7 []) = some q4) :
    parseLine line = some { timestamp := ts
                            mjd := datetime_to_mjd ts
                            temperature_s1 := q1
                            humidity_s1 := q2
                            temperature_s2 := q3
                            humidity_s2 := q4 } := by
  simp only [parseLine, parseLineL, hlen, if_true, hts, hf1, hf3, hf5, hf7, mkReading]

/-- Witness for C1, the spec's concrete scenario: the line
`01/01/2024 10:00:00,21.5C,x,45.2%,x,22.0C,x,46.0%` parses to the Reading
with timestamp 2024-01-01T10:00:00, temperatures 21.5 and 22.0, humidities
45.2 and 46.0, and mjd 723725/12 = 60310.41666…, which lies strictly between
60310.41666 and 60310.41667. -/
theorem c1_parse_wellformed_line_witness :
    parseLine "01/01/2024 10:00:00,21.5C,x,45.2%,x,22.0C,x,46.0%" =
      some { timestamp := ⟨2024, 1, 1, 10, 0, 0⟩
             mjd := mkRat 723725 12
             temperature_s1 := mkRat 43 2
             humidity_s1 := mkRat 226 5
             temperature_s2 := 22
             humidity_s2 := 46 } ∧
    mkRat 6031041666 100000 < mkRat 723725 12 ∧
    mkRat 723725 12 < mkRat 6031041667 100000 := by
  refine ⟨?_, by decide, by decide⟩
  have h := c1_parse_wellformed_line "01/01/2024 10:00:00,21.5C,x,45.2%,x,22.0C,x,46.0%"
    ⟨2024, 1, 1, 10, 0, 0⟩ (mkRat 43 2) (mkRat 226 5) 22 46
    (by decide) (by decide) (by decide) (by decide) (by decide) (by decide)
  rw [h]
  decide

/-- C2: a response of N lines of which M are malformed (fewer than 8 fields,
unparseable timestamp in field 0, or an unconvertible numeric field among
fields 1, 3, 5, 7 — exactly the lines on which `parseLineL` is `none`)
yields exactly N − M Readings, one per well-formed line in source order;
each malformed line is skipped individually and never affects the parsing
of the other lines or aborts the batch. -/
theorem c2_malformed_lines_skipped (resp : String) :
    ((parse resp).length =
      (respLines resp).length -
        (respLines resp).countP (fun l => (parseLineL l).isNone)) ∧
    (∀ (xs : List (List Char)) (bad : List Char) (ys : List (List Char)),
      respLines resp = xs ++ bad :: ys → parseLineL bad = none →
      parse resp = xs.filterMap parseLineL ++ ys.filterMap parseLineL) ∧
    (parse resp =
      ((respLines resp).filter (fun l => (parseLineL l).isSome)).filterMap parseLineL) := by
  refine ⟨?_, ?_, (filterMap_filter_isSome parseLineL (respLines resp)).symm⟩
  · have h := length_filterMap_add parseLineL (respLines resp)
    unfold parse
    omega
  · intro xs bad ys hsplit hbad
    unfold parse
    rw [hsplit, List.filterMap_append, List.filterMap_cons_none hbad]

/-- Witness for C2: a three-line response whose middle line is malformed
yields 3 − 1 = 2 readings, exactly those of the first and third lines. -/
theorem c2_malformed_lines_skipped_witness :
    parse "02/01/2024 00:00:01,1C,x,2%,x,3C,x,4%\nbad,line\n02/01/2024 00:00:02,5C,x,6%,x,7C,x,8%" =
      ["02/01/2024 00:00:01,1C,x,2%,x,3C,x,4%".data].filterMap parseLineL ++
      ["02/01/2024 00:00:02,5C,x,6%,x,7C,x,8%".data].filterMap parseLineL ∧
    (parse "02/01/2024 00:00:01,1C,x,2%,x,3C,x,4%\nbad,line\n02/01/2024 00:00:02,5C,x,6%,x,7C,x,8%").length = 3 - 1 := by
  constructor
  · exact (c2_malformed_lines_skipped _).2.1
      ["02/01/2024 00:00:01,1C,x,2%,x,3C,x,4%".data] "bad,line".data
      ["02/01/2024 00:00:02,5C,x,6%,x,7C,x,8%".data] (by decide) (by decide)
  · have h := (c2_malformed_lines_skipped
      "02/01/2024 00:00:01,1C,x,2%,x,3C,x,4%\nbad,line\n02/01/2024 00:00:02,5C,x,6%,x,7C,x,8%").1
    rw [h]
    decide

/-- C9: processing an empty response (the serial read-timeout case) performs
no sink writes and emits zero Readings: parsing the empty string yields an
empty line sequence, `process_data` leaves the state untouched, and a whole
cycle with an empty response and an unchanged date is a no-op — even though
the loop invokes the parser unconditionally on every cycle. -/
theorem c9_empty_response_noop :
    parse "" = [] ∧
    (∀ (dbOk fileOk : ℕ → Bool) (st : Sys), processData "" dbOk fileOk st = .ok st) ∧
    (∀ (dbOk fileOk : ℕ → Bool) (st : Sys),
      stepCycle ⟨st.today, true, "", dbOk, fileOk⟩ st = .ok st) := by
  refine ⟨rfl, fun dbOk fileOk st => rfl, fun dbOk fileOk st => ?_⟩
  show processData "" dbOk fileOk (rollover st.today st) = .ok st
  have h : rollover st.today st = st := by
    unfold rollover
    rw [if_pos rfl]
  rw [h]
  rfl

/-- C10: unit-suffix stripping is permissive rather than exact.  `rstrip`
removes all trailing occurrences of the unit character, so a numeric field
parses even when the unit suffix is absent or repeated, and the presence of
the suffix is never validated: whenever a character list parses as a float,
appending any number (including zero) of copies of a non-digit, non-dot unit
character and then stripping leaves the parse result unchanged; concretely,
a line with fields `21.5`, `45.2%%`, `22.0CC`, `46.0` still parses. -/
theorem c10_unit_suffix_permissive :
    (∀ (c : Char) (l : List Char) (n : ℕ) (q : ℚ), c.isDigit = false → c ≠ '.' →
      parseFloatL l = some q →
      parseFloatL (dropTrailingAll c (l ++ List.replicate n c)) = some q) ∧
    parseLine "03/01/2024 00:00:00,21.5,x,45.2%%,x,22.0CC,x,46.0" =
      some { timestamp := ⟨2024, 1, 3, 0, 0, 0⟩
             mjd := 60312
             temperature_s1 := mkRat 43 2
             humidity_s1 := mkRat 226 5
             temperature_s2 := 22
             humidity_s2 := 46 } := by
  refine ⟨?_, by decide⟩
  intro c l n q hcd hcdot h
  obtain ⟨a, hl, had⟩ := parseFloatL_getLast h
  have hne : a ≠ c := by
    rcases had with hd | hd
    · intro hac
      rw [hac] at hd
      rw [hd] at hcd
      exact Bool.noConfusion hcd
    · intro hac
      exact hcdot (hac.symm.trans hd)
  rw [dta_append_replicate, dta_of_getLast_ne hl hne]
  exact h

/-- Witness for C10: the field text `45.2%%` (doubled unit character) still
parses to 45.2 after stripping, as does the bare `45.2`. -/
theorem c10_unit_suffix_permissive_witness :
    parseFloatL (dropTrailingAll '%' ("45.2".data ++ List.replicate 2 '%')) =
      some (mkRat 226 5) ∧
    parseFloatL (dropTrailingAll '%' ("45.2".data ++ List.replicate 0 '%')) =
      some (mkRat 226 5) := by
  constructor
  · exact (c10_unit_suffix_permissive.1) '%' "45.2".data 2 (mkRat 226 5)
      (by decide) (by decide) (by decide)
  · exact (c10_unit_suffix_permissive.1) '%' "45.2".data 0 (mkRat 226 5)
      (by decide) (by decide) (by decide)

/-- C6: `datetime_to_mjd` is a pure function of the timestamp — every Reading
the parser emits carries `mjd = datetime_to_mjd timestamp`, so equal
timestamps give identical mjd — and it is strictly monotonic: for all valid
timestamps `a < b` (in the field-wise order of the calendar type),
`datetime_to_mjd a < datetime_to_mjd b`. -/
theorem c6_mjd_deterministic_monotonic :
    (∀ (resp : String) (r : Reading), r ∈ parse resp →
      r.mjd = datetime_to_mjd r.timestamp) ∧
    (∀ a b : DateTime, validDT a = true → validDT b = true → dtLt a b →
      datetime_to_mjd a < datetime_to_mjd b) := by
  constructor
  · intro resp r hr
    unfold parse at hr
    obtain ⟨l, _, hpl⟩ := List.mem_filterMap.mp hr
    exact parseLineL_mjd hpl
  · exact fun a b hva hvb h => mjd_strict_mono hva hvb h

/-- Witness for C6: the reading parsed from a concrete line has its mjd
determined by its timestamp, and mjd is strictly increasing from
2024-01-01 10:00:00 to 2024-01-01 10:00:01 and to 2025-01-01 00:00:00. -/
theorem c6_mjd_deterministic_monotonic_witness :
    (mkReading ⟨2024, 1, 4, 0, 0, 0⟩ 1 2 3 4).mjd =
      datetime_to_mjd (mkReading ⟨2024, 1, 4, 0, 0, 0⟩ 1 2 3 4).timestamp ∧
    datetime_to_mjd ⟨2024, 1, 1, 10, 0, 0⟩ < datetime_to_mjd ⟨2024, 1, 1, 10, 0, 1⟩ ∧
    datetime_to_mjd ⟨2024, 1, 1, 10, 0, 1⟩ < datetime_to_mjd ⟨2025, 1, 1, 0, 0, 0⟩ := by
  refine ⟨?_, ?_, ?_⟩
  · exact c6_mjd_deterministic_monotonic.1 "04/01/2024 00:00:00,1C,x,2%,x,3C,x,4%"
      (mkReading ⟨2024, 1, 4, 0, 0, 0⟩ 1 2 3 4) (by decide)
  · exact c6_mjd_deterministic_monotonic.2 _ _ (by decide) (by decide) (by decide)
  · exact c6_mjd_deterministic_monotonic.2 _ _ (by decide) (by decide) (by decide)

/-- C3: for every Reading processed in a cycle, a database insert failure is
rolled back (the database is unchanged by the failed insert), logged, and
never prevents the file-sink append for the same Reading nor halts the other
lines or the loop: under any schedule of database failures, `process_data`
completes normally with every parsed reading appended to the current day's
file; under an all-failing schedule the database is left exactly as it was
while the file still receives every reading, one log entry per line; and a
cycle whose file writes succeed always completes so the loop continues. -/
theorem c3_db_failure_recoverable (resp : String) (st : Sys) (dbOk : ℕ → Bool) :
    (∃ st', processData resp dbOk (fun _ => true) st = .ok st' ∧
      st'.today = st.today ∧
      fileRows st' st.today = fileRows st st.today ++ (parse resp).map Row.data) ∧
    (∃ st', processData resp (fun _ => false) (fun _ => true) st = .ok st' ∧
      st'.db = st.db ∧
      st'.errLog = st.errLog + (respLines resp).length ∧
      fileRows st' st.today = fileRows st st.today ++ (parse resp).map Row.data) ∧
    (∀ (cyc : AcqCycle) (cs : List AcqCycle) (st0 : Sys), cyc.transportOk = true →
      cyc.fileOk = (fun _ => true) →
      ∃ st1, runCycles (cyc :: cs) st0 = runCycles cs st1) := by
  refine ⟨?_, ?_, ?_⟩
  · refine ⟨runLines dbOk (respLines resp) 0 st,
      procLines_eq_runLines dbOk (respLines resp) 0 st,
      (runLines_frame dbOk (respLines resp) 0 st).1,
      runLines_fileRows dbOk (respLines resp) 0 st st.today rfl⟩
  · refine ⟨runLines (fun _ => false) (respLines resp) 0 st,
      procLines_eq_runLines _ (respLines resp) 0 st,
      (runLines_db_false _ (fun _ => rfl) (respLines resp) 0 st).1,
      (runLines_db_false _ (fun _ => rfl) (respLines resp) 0 st).2,
      runLines_fileRows _ (respLines resp) 0 st st.today rfl⟩
  · intro cyc cs st0 ht hfa
    refine ⟨runLines cyc.dbOk (respLines cyc.resp) 0 (rollover cyc.now st0), ?_⟩
    simp only [runCycles, ht, if_true]
    rw [show processData cyc.resp cyc.dbOk cyc.fileOk (rollover cyc.now st0) =
        .ok (runLines cyc.dbOk (respLines cyc.resp) 0 (rollover cyc.now st0)) from by
      rw [hfa]
      exact procLines_eq_runLines cyc.dbOk (respLines cyc.resp) 0 (rollover cyc.now st0)]

/-- Witness for C3: with a database that fails every insert and a working
file sink, processing a one-line response completes normally, leaves the
database empty, and still appends the reading's row to the day's file. -/
theorem c3_db_failure_recoverable_witness :
    (∃ st', processData "06/01/2024 00:00:00,1C,x,2%,x,3C,x,4%"
        (fun _ => false) (fun _ => true) (startingState ⟨2024, 1, 6⟩ []) = .ok st' ∧
      st'.db = (startingState ⟨2024, 1, 6⟩ []).db ∧
      st'.errLog = (startingState ⟨2024, 1, 6⟩ []).errLog + 1 ∧
      fileRows st' ⟨2024, 1, 6⟩ =
        fileRows (startingState ⟨2024, 1, 6⟩ []) ⟨2024, 1, 6⟩ ++
          (parse "06/01/2024 00:00:00,1C,x,2%,x,3C,x,4%").map Row.data) ∧
    (∃ st1, runCycles [⟨⟨2024, 1, 6⟩, true, "", fun _ => false, fun _ => true⟩]
        (startingState ⟨2024, 1, 6⟩ []) = runCycles [] st1) := by
  constructor
  · have h := (c3_db_failure_recoverable "06/01/2024 00:00:00,1C,x,2%,x,3C,x,4%"
      (startingState ⟨2024, 1, 6⟩ []) (fun _ => true)).2.1
    obtain ⟨st', h1, h2, h3, h4⟩ := h
    exact ⟨st', h1, h2, h3, h4⟩
  · exact (c3_db_failure_recoverable "" (startingState ⟨2024, 1, 6⟩ []) (fun _ => false)).2.2
      ⟨⟨2024, 1, 6⟩, true, "", fun _ => false, fun _ => true⟩ []
      (startingState ⟨2024, 1, 6⟩ []) rfl rfl

/-- Counterexample to C4 as stated.  The claim says a file-sink write failure
is recoverable — logged, with the acquisition loop continuing to subsequent
readings and cycles.  In the code no handler catches a `csv_writer.writerow`
failure (`process_data` catches only `ValueError`, `main` only
`SerialException`/`PermissionError`), so the exception aborts the batch and
the loop: on a two-line response whose first file write fails, processing
ends fatally with the second reading in neither sink, and a two-cycle run
exits with a sink failure before its second cycle, its database holding only
the first reading. -/
theorem c4_counterexample :
    processData "05/01/2024 00:00:00,1C,x,2%,x,3C,x,4%\n05/01/2024 00:00:01,5C,x,6%,x,7C,x,8%"
        (fun _ => true) (fun _ => false) (startingState ⟨2024, 1, 5⟩ []) =
      .fatal { startingState ⟨2024, 1, 5⟩ [] with
               db := [mkReading ⟨2024, 1, 5, 0, 0, 0⟩ 1 2 3 4] } ∧
    (runMain true true ⟨2024, 1, 5⟩ []
      [⟨⟨2024, 1, 5⟩, true, "05/01/2024 00:00:00,1C,x,2%,x,3C,x,4%", fun _ => true, fun _ => false⟩,
       ⟨⟨2024, 1, 5⟩, true, "05/01/2024 00:00:01,5C,x,6%,x,7C,x,8%", fun _ => true, fun _ => true⟩]).2
      = .sinkFatal ∧
    (runMain true true ⟨2024, 1, 5⟩ []
      [⟨⟨2024, 1, 5⟩, true, "05/01/2024 00:00:00,1C,x,2%,x,3C,x,4%", fun _ => true, fun _ => false⟩,
       ⟨⟨2024, 1, 5⟩, true, "05/01/2024 00:00:01,5C,x,6%,x,7C,x,8%", fun _ => true, fun _ => true⟩]).1.db
      = [mkReading ⟨2024, 1, 5, 0, 0, 0⟩ 1 2 3 4] := by
  refine ⟨by decide, by decide, by decide⟩

/-- C4 amended: a file-sink write failure is **not** caught anywhere — the
exception propagates, aborting the current batch and terminating the
acquisition loop (which then releases its resources).  The database write
for that same Reading, which happens before the file write, is unaffected:
when the file write of the first parsed reading fails, `process_data` ends
fatally with the files untouched and the database extended by exactly that
reading when its insert succeeded. -/
theorem c4_amended_file_failure_fatal (resp : String) (st : Sys)
    (dbOk fileOk : ℕ → Bool) (r : Reading) (rest : List Reading)
    (hp : parse resp = r :: rest) (hf : fileOk 0 = false) :
    ∃ st', processData resp dbOk fileOk st = .fatal st' ∧
      st'.files = st.files ∧ st'.today = st.today ∧
      st'.db = st.db ++ (if dbOk 0 = true then [r] else []) :=
  procLines_fileFail dbOk fileOk (respLines resp) 0 st r rest hp hf

/-- Witness for the amended C4 at a concrete one-line response: the file
write fails, processing is fatal, the files are untouched, and the database
holds exactly the reading whose insert preceded the failed file write. -/
theorem c4_amended_file_failure_fatal_witness :
    ∃ st', processData "05/01/2024 00:00:02,9C,x,8%,x,7C,x,6%"
        (fun _ => true) (fun _ => false) (startingState ⟨2024, 1, 5⟩ []) = .fatal st' ∧
      st'.files = (startingState ⟨2024, 1, 5⟩ []).files ∧
      st'.today = (startingState ⟨2024, 1, 5⟩ []).today ∧
      st'.db = (startingState ⟨2024, 1, 5⟩ []).db ++
        [mkReading ⟨2024, 1, 5, 0, 0, 2⟩ 9 8 7 6] := by
  obtain ⟨st', h1, h2, h3, h4⟩ := c4_amended_file_failure_fatal
    "05/01/2024 00:00:02,9C,x,8%,x,7C,x,6%" (startingState ⟨2024, 1, 5⟩ [])
    (fun _ => true) (fun _ => false) (mkReading ⟨2024, 1, 5, 0, 0, 2⟩ 9 8 7 6) []
    (by decide) rfl
  exact ⟨st', h1, h2, h3, h4⟩

/-- C5: the rotation-state invariant.  The rollover check runs once at the
start of each cycle: it leaves the state untouched when the date is
unchanged, and otherwise performs exactly one transition — closing the old
handle (one more file close), updating `current_day` to the new date,
writing the header row exactly when the new day's file does not exist yet,
and never truncating an existing file (its contents are kept, and file
contents only ever grow, including through `process_data`).  The open file's
date equals `current_day` after startup and is preserved by rollover and by
processing. -/
theorem c5_rotation_invariant (st : Sys) (now d0 : Date) (files0 : Files)
    (resp : String) (dbOk fileOk : ℕ → Bool) :
    (st.openDate = st.today → (rollover now st).openDate = (rollover now st).today) ∧
    ((rollover now st).today = now) ∧
    ((rollover now st).rollCount = st.rollCount + (if now = st.today then 0 else 1)) ∧
    ((rollover now st).fileCloses = st.fileCloses + (if now = st.today then 0 else 1)) ∧
    (now = st.today → rollover now st = st) ∧
    (now ≠ st.today → getFile st.files now = none →
      getFile (rollover now st).files now = some [Row.header]) ∧
    (now ≠ st.today → ∀ rs, getFile st.files now = some rs →
      getFile (rollover now st).files now = some rs) ∧
    (∀ d rs, getFile st.files d = some rs →
      ∃ ext, getFile (rollover now st).files d = some (rs ++ ext)) ∧
    ((startingState d0 files0).openDate = (startingState d0 files0).today) ∧
    (getFile files0 d0 = none →
      getFile (startingState d0 files0).files d0 = some [Row.header]) ∧
    (∀ rs, getFile files0 d0 = some rs →
      getFile (startingState d0 files0).files d0 = some rs) ∧
    ((processData resp dbOk fileOk st).state.today = st.today) ∧
    ((processData resp dbOk fileOk st).state.openDate = st.openDate) ∧
    (∀ d rs, getFile st.files d = some rs →
      ∃ ext, getFile (processData resp dbOk fileOk st).state.files d = some (rs ++ ext)) := by
  obtain ⟨r1, r2, r3, r4, r5, r6, r7, r8, r9⟩ := rollover_spec now st
  obtain ⟨f1, f2, f3, f4, f5, f6, f7, f8⟩ := processData_frame resp dbOk fileOk st
  refine ⟨?_, r1, r8, r9, ?_, ?_, ?_, ?_, rfl, ?_, ?_, f1, f2, f8⟩
  · intro h
    rw [r1, r2]
    by_cases hn : now = st.today
    · rw [if_pos hn, h, hn]
    · rw [if_neg hn]
  · intro h
    unfold rollover
    rw [if_pos h]
  · intro hne hnofile
    unfold rollover
    rw [if_neg hne]
    simp only [hnofile, Option.isSome_none, Bool.false_eq_true, if_false]
    exact getFile_putFile_self st.files now [Row.header]
  · intro hne rs hrs
    unfold rollover
    rw [if_neg hne]
    simp only [hrs, Option.isSome_some, if_true]
  · intro d rs hrs
    unfold rollover
    by_cases hn : now = st.today
    · rw [if_pos hn]
      exact ⟨[], by rw [hrs, List.append_nil]⟩
    · rw [if_neg hn]
      refine ⟨[], ?_⟩
      rw [List.append_nil]
      simp only
      by_cases hs : (getFile st.files now).isSome
      · rw [if_pos hs]
        exact hrs
      · rw [if_neg hs]
        have hdn : d ≠ now := by
          intro hdn
          rw [hdn] at hrs
          rw [hrs] at hs
          exact hs (by simp)
        rw [getFile_putFile_ne _ _ hdn]
        exact hrs
  · intro h
    show getFile (if (getFile files0 d0).isSome then files0
      else putFile files0 d0 [Row.header]) d0 = some [Row.header]
    rw [h]
    simp only [Option.isSome_none, Bool.false_eq_true, if_false]
    exact getFile_putFile_self files0 d0 [Row.header]
  · intro rs h
    show getFile (if (getFile files0 d0).isSome then files0
      else putFile files0 d0 [Row.header]) d0 = some rs
    rw [h]
    simp only [Option.isSome_some, if_true]
    exact h

/-- Witness for C5: starting on 2024-01-08 with an empty file system and
rolling over to 2024-01-09, the open file's date equals the new current day,
the new day's file is created with exactly the header row, and the previous
day's file is preserved (its header still a prefix of its contents). -/
theorem c5_rotation_invariant_witness :
    (rollover ⟨2024, 1, 9⟩ (startingState ⟨2024, 1, 8⟩ [])).openDate =
      (rollover ⟨2024, 1, 9⟩ (startingState ⟨2024, 1, 8⟩ [])).today ∧
    getFile (rollover ⟨2024, 1, 9⟩ (startingState ⟨2024, 1, 8⟩ [])).files ⟨2024, 1, 9⟩ =
      some [Row.header] ∧
    (∃ ext, getFile (rollover ⟨2024, 1, 9⟩ (startingState ⟨2024, 1, 8⟩ [])).files ⟨2024, 1, 8⟩ =
      some ([Row.header] ++ ext)) ∧
    (rollover ⟨2024, 1, 9⟩ (startingState ⟨2024, 1, 8⟩ [])).rollCount =
      (startingState ⟨2024, 1, 8⟩ []).rollCount + 1 := by
  obtain ⟨i1, i2, i3, i4, i5, i6, i7, i8, i9, i10, i11, i12, i13, i14⟩ :=
    c5_rotation_invariant (startingState ⟨2024, 1, 8⟩ []) ⟨2024, 1, 9⟩ ⟨2024, 1, 8⟩ []
      "" (fun _ => true) (fun _ => true)
  refine ⟨i1 rfl, i6 (by decide) (by decide), i8 _ _ (by decide), ?_⟩
  rw [i3]
  decide

/-- C7: on every path into the Stopped state — the external interrupt after
the schedule, a fatal transport error (at startup or mid-run), or the fatal
propagation of a sink failure — the `finally` block releases the file handle
and the database connection: the final state has both closed, the connection
was closed exactly once, and file handles were closed exactly once for the
final handle plus once per rollover (each rollover closes exactly the
previous day's handle). -/
theorem c7_stopped_releases_resources (serialOk : Bool) (d0 : Date) (files0 : Files)
    (cycles : List AcqCycle) :
    (runMain true serialOk d0 files0 cycles).1.connOpen = false ∧
    (runMain true serialOk d0 files0 cycles).1.fileOpen = false ∧
    (runMain true serialOk d0 files0 cycles).1.connCloses = 1 ∧
    (runMain true serialOk d0 files0 cycles).1.fileCloses =
      1 + (runMain true serialOk d0 files0 cycles).1.rollCount := by
  cases serialOk with
  | false => exact ⟨rfl, rfl, rfl, rfl⟩
  | true => exact runCycles_resources cycles (startingState d0 files0) rfl rfl rfl rfl

/-- Counterexample to C8 as stated.  The claim says a transport open failure
during Starting leaves no per-day file created.  In the code, `main` creates
and opens today's CSV file (lines 137–148) **before** opening the serial
port (line 151), so when the serial open fails, the day's file has already
been created with its header row: starting from an empty file system, the
failed run leaves exactly that file behind. -/
theorem c8_counterexample :
    (runMain true false ⟨2024, 1, 6⟩ [] []).1.files = [(⟨2024, 1, 6⟩, [Row.header])] ∧
    (runMain true false ⟨2024, 1, 6⟩ [] []).2 = .transportFatal := by
  refine ⟨by decide, by decide⟩

/-- C8 amended: a serial-transport open failure during Starting is fatal and
transitions directly to Stopped with no readings processed, the database
connection closed (not retained), and the file handle closed — but the
per-day file has already been created during Starting, before the transport
open: it exists afterwards, with exactly the header row when it was new, and
with its prior contents untouched when it already existed. -/
theorem c8_amended_transport_failure (d0 : Date) (files0 : Files) (cycles : List AcqCycle) :
    (runMain true false d0 files0 cycles).2 = .transportFatal ∧
    (runMain true false d0 files0 cycles).1.db = [] ∧
    (runMain true false d0 files0 cycles).1.connOpen = false ∧
    (runMain true false d0 files0 cycles).1.fileOpen = false ∧
    (getFile files0 d0 = none →
      getFile (runMain true false d0 files0 cycles).1.files d0 = some [Row.header]) ∧
    (∀ rs, getFile files0 d0 = some rs →
      getFile (runMain true false d0 files0 cycles).1.files d0 = some rs) := by
  refine ⟨rfl, rfl, rfl, rfl, ?_, ?_⟩
  · intro h
    show getFile (if (getFile files0 d0).isSome then files0
      else putFile files0 d0 [Row.header]) d0 = some [Row.header]
    rw [h]
    simp only [Option.isSome_none, Bool.false_eq_true, if_false]
    exact getFile_putFile_self files0 d0 [Row.header]
  · intro rs h
    show getFile (if (getFile files0 d0).isSome then files0
      else putFile files0 d0 [Row.header]) d0 = some rs
    rw [h]
    simp only [Option.isSome_some, if_true]
    exact h

/-- Witness for the amended C8: from an empty file system on 2024-01-07, the
failed run ends with the transport-fatal exit, an empty database, closed
resources, and the newly created day file holding exactly the header row. -/
theorem c8_amended_transport_failure_witness :
    (runMain true false ⟨2024, 1, 7⟩ [] []).2 = .transportFatal ∧
    (runMain true false ⟨2024, 1, 7⟩ [] []).1.db = [] ∧
    (runMain true false ⟨2024, 1, 7⟩ [] []).1.connOpen = false ∧
    (runMain true false ⟨2024, 1, 7⟩ [] []).1.fileOpen = false ∧
    getFile (runMain true false ⟨2024, 1, 7⟩ [] []).1.files ⟨2024, 1, 7⟩ =
      some [Row.header] := by
  obtain ⟨h1, h2, h3, h4, h5, h6⟩ := c8_amended_transport_failure ⟨2024, 1, 7⟩ [] []
  exact ⟨h1, h2, h3, h4, h5 (by decide)⟩
